import Mathlib

/-!
Shallow embedding of the Intcode virtual machine from `src/intcode.rs`
together with the dispatch code generated by the `make_op_code!` macro of
`opcode-macro/src/lib.rs`, and of the permutation enumerator from
`src/day7.rs`.

Conventions of the embedding:
* Rust `i64` values are modelled as `Int` (the spec declares overflow out
  of scope, and no claim touches wrap-around behaviour).
* Rust `usize` values (positions, lengths) are modelled as `Nat`.
* Rust truncated division and remainder (`/`, `%` on `i64`) are `Int.tdiv`
  and `Int.tmod`.
* The pull-based input iterator is modelled as a `List (Except EmulatorError Int)`;
  consuming `next()` is taking the head.
* Rust in-place mutation through `&mut` is modelled by threading the
  mutated values through return tuples, so that the state after a failing
  call is still observable, exactly as it is for the Rust `&mut self`
  methods.
* Indexing expressions that the generated Rust code performs only under a
  previously established bounds guard (`memory[parameter_location]`) are
  modelled with `List.getD _ 0`; the guard makes the default unreachable.
-/

deriving instance DecidableEq for Except

/-- Parameter addressing modes, from `enum ParameterMode` in `intcode.rs`:
digit 0 is Position, digit 1 is Immediate. -/
inductive ParameterMode where
  | Position
  | Immediate
deriving DecidableEq, Repr

/-- Error type, from `enum EmulatorError` in `intcode.rs`. -/
inductive EmulatorError where
  | InvalidInstruction (valueFound : Int) (position : Nat)
  | NotEnoughParametersForInstruction (instruction : Int) (expected : Nat) (found : Nat)
  | InvalidMemoryLocation (valueFound : Int) (position : Nat)
  | InstructionPointerOutOfBounds (position : Nat)
  | InvalidParameterMode (valueFound : Int) (position : Nat)
  | UnexpectedParameterModeForWritable (valueFound : Int) (position : Nat)
  | InputNonExistent
deriving DecidableEq, Repr

/-- Per-step outcome, from `enum EmulatorResult` in `intcode.rs`. -/
inductive EmulatorResult where
  | Success
  | SuccessWithValue (value : Int)
  | Done
deriving DecidableEq, Repr

/-- The nine opcode variants declared in the `make_op_code!` invocation. -/
inductive OpCode where
  | Add
  | Multiply
  | Input
  | Output
  | JumpIfTrue
  | JumpIfFalse
  | LessThan
  | Equals
  | End
deriving DecidableEq, Repr

/-- Numeric code of each variant, from the generated `to_opcode`. -/
def OpCode.toOpcode : OpCode → Int
  | .Add => 1
  | .Multiply => 2
  | .Input => 3
  | .Output => 4
  | .JumpIfTrue => 5
  | .JumpIfFalse => 6
  | .LessThan => 7
  | .Equals => 8
  | .End => 99

/-- Number of declared parameters of each variant (`variant.parameters.len()`
in the macro). -/
def OpCode.parameterCount : OpCode → Nat
  | .Add => 3
  | .Multiply => 3
  | .Input => 1
  | .Output => 1
  | .JumpIfTrue => 2
  | .JumpIfFalse => 2
  | .LessThan => 3
  | .Equals => 3
  | .End => 0

/-- One step of the generated parameter-mode iterator: a digit maps to a
mode, any digit other than 0 and 1 is `InvalidParameterMode` carrying the
digit and the instruction-pointer position. -/
def parameterModeOfDigit (digit : Int) (position : Nat) : Except EmulatorError ParameterMode :=
  if digit = 0 then .ok .Position
  else if digit = 1 then .ok .Immediate
  else .error (.InvalidParameterMode digit position)

/-- Decoding of the instruction word, from the generated
`get_current_instruction`: the word is fetched at the instruction pointer
(`InstructionPointerOutOfBounds` when absent), the opcode is the Rust
truncated remainder of the word by 100, and the remaining digits
(truncated quotient by 100) seed the lazy parameter-mode iterator. -/
def getCurrentInstruction (memory : List Int) (instructionPointer : Nat) :
    Except EmulatorError (OpCode × Int) :=
  match memory[instructionPointer]? with
  | none => .error (.InstructionPointerOutOfBounds instructionPointer)
  | some instructionValue =>
    let code := instructionValue.tmod 100
    if code = 1 then .ok (.Add, instructionValue.tdiv 100)
    else if code = 2 then .ok (.Multiply, instructionValue.tdiv 100)
    else if code = 3 then .ok (.Input, instructionValue.tdiv 100)
    else if code = 4 then .ok (.Output, instructionValue.tdiv 100)
    else if code = 5 then .ok (.JumpIfTrue, instructionValue.tdiv 100)
    else if code = 6 then .ok (.JumpIfFalse, instructionValue.tdiv 100)
    else if code = 7 then .ok (.LessThan, instructionValue.tdiv 100)
    else if code = 8 then .ok (.Equals, instructionValue.tdiv 100)
    else if code = 99 then .ok (.End, instructionValue.tdiv 100)
    else .error (.InvalidInstruction instructionValue instructionPointer)

/-- Resolution of one ReadOnly parameter, from the generated
`parameter_initializers`: first the next mode digit is consumed
(`parameterModeDigits.tmod 10`, with the remaining digits
`parameterModeDigits.tdiv 10`), then Position dereferences the slot value
as an address into Memory (negative or out-of-range addresses are
`InvalidMemoryLocation` carrying the address and the slot position) and
Immediate takes the slot value itself. Returns the resolved value and the
remaining mode digits. -/
def resolveReadOnly (memory : List Int) (instructionPointer idx : Nat)
    (parameterModeDigits : Int) : Except EmulatorError (Int × Int) :=
  match parameterModeOfDigit (parameterModeDigits.tmod 10) instructionPointer with
  | .error e => .error e
  | .ok .Position =>
    let parameterLocation := instructionPointer + idx + 1
    let address := memory.getD parameterLocation 0
    if address < 0 then .error (.InvalidMemoryLocation address parameterLocation)
    else
      match memory[address.toNat]? with
      | some value => .ok (value, parameterModeDigits.tdiv 10)
      | none => .error (.InvalidMemoryLocation address parameterLocation)
  | .ok .Immediate =>
    .ok (memory.getD (instructionPointer + idx + 1) 0, parameterModeDigits.tdiv 10)

/-- Resolution of one Writable parameter, from the generated
`parameter_initializers`: Position resolves the slot value to an in-range
destination index, Immediate is the hard error
`UnexpectedParameterModeForWritable` carrying mode value 1 and the slot
position. Returns the destination index (the Rust `&mut` cell) and the
remaining mode digits. -/
def resolveWritable (memory : List Int) (instructionPointer idx : Nat)
    (parameterModeDigits : Int) : Except EmulatorError (Nat × Int) :=
  match parameterModeOfDigit (parameterModeDigits.tmod 10) instructionPointer with
  | .error e => .error e
  | .ok .Position =>
    let parameterLocation := instructionPointer + idx + 1
    let address := memory.getD parameterLocation 0
    if address < 0 then .error (.InvalidMemoryLocation address parameterLocation)
    else
      match memory[address.toNat]? with
      | some _ => .ok (address.toNat, parameterModeDigits.tdiv 10)
      | none => .error (.InvalidMemoryLocation address parameterLocation)
  | .ok .Immediate =>
    .error (.UnexpectedParameterModeForWritable 1 (instructionPointer + idx + 1))

/-- The generated `OpCode::run`: decode the instruction, guard the
parameter count (`instruction_pointer + 1 + parameter_amt >= memory.len()`
fails with `NotEnoughParametersForInstruction`), resolve the parameters
left to right, run the variant handler, and compute the
instruction-pointer update (`None` for the terminator `End`, the override
converted to `usize` for taken jumps, otherwise pointer plus one plus the
parameter count). The triple returned is (memory, input iterator, result),
the first two components modelling the `&mut` arguments. -/
def OpCode.run (memory : List Int) (instructionPointer : Nat)
    (inputIter : List (Except EmulatorError Int)) :
    List Int × List (Except EmulatorError Int) × Except EmulatorError (Option Nat × Option Int) :=
  match getCurrentInstruction memory instructionPointer with
  | .error e => (memory, inputIter, .error e)
  | .ok (instruction, parameterModeDigits) =>
    match instruction with
    | .Add =>
      if memory.length ≤ instructionPointer + 1 + 3 then
        (memory, inputIter, .error (.NotEnoughParametersForInstruction 1 3
          (instructionPointer + 1 + 3 - memory.length)))
      else
        match resolveReadOnly memory instructionPointer 0 parameterModeDigits with
        | .error e => (memory, inputIter, .error e)
        | .ok (addend1, pmd1) =>
          match resolveReadOnly memory instructionPointer 1 pmd1 with
          | .error e => (memory, inputIter, .error e)
          | .ok (addend2, pmd2) =>
            match resolveWritable memory instructionPointer 2 pmd2 with
            | .error e => (memory, inputIter, .error e)
            | .ok (dest, _) =>
              (memory.set dest (addend1 + addend2), inputIter,
                .ok (some (instructionPointer + 4), none))
    | .Multiply =>
      if memory.length ≤ instructionPointer + 1 + 3 then
        (memory, inputIter, .error (.NotEnoughParametersForInstruction 2 3
          (instructionPointer + 1 + 3 - memory.length)))
      else
        match resolveReadOnly memory instructionPointer 0 parameterModeDigits with
        | .error e => (memory, inputIter, .error e)
        | .ok (factor1, pmd1) =>
          match resolveReadOnly memory instructionPointer 1 pmd1 with
          | .error e => (memory, inputIter, .error e)
          | .ok (factor2, pmd2) =>
            match resolveWritable memory instructionPointer 2 pmd2 with
            | .error e => (memory, inputIter, .error e)
            | .ok (dest, _) =>
              (memory.set dest (factor1 * factor2), inputIter,
                .ok (some (instructionPointer + 4), none))
    | .Input =>
      if memory.length ≤ instructionPointer + 1 + 1 then
        (memory, inputIter, .error (.NotEnoughParametersForInstruction 3 1
          (instructionPointer + 1 + 1 - memory.length)))
      else
        match resolveWritable memory instructionPointer 0 parameterModeDigits with
        | .error e => (memory, inputIter, .error e)
        | .ok (dest, _) =>
          match inputIter with
          | [] => (memory, [], .error .InputNonExistent)
          | .error e :: rest => (memory, rest, .error e)
          | .ok value :: rest =>
            (memory.set dest value, rest, .ok (some (instructionPointer + 2), none))
    | .Output =>
      if memory.length ≤ instructionPointer + 1 + 1 then
        (memory, inputIter, .error (.NotEnoughParametersForInstruction 4 1
          (instructionPointer + 1 + 1 - memory.length)))
      else
        match resolveReadOnly memory instructionPointer 0 parameterModeDigits with
        | .error e => (memory, inputIter, .error e)
        | .ok (value, _) =>
          (memory, inputIter, .ok (some (instructionPointer + 2), some value))
    | .JumpIfTrue =>
      if memory.length ≤ instructionPointer + 1 + 2 then
        (memory, inputIter, .error (.NotEnoughParametersForInstruction 5 2
          (instructionPointer + 1 + 2 - memory.length)))
      else
        match resolveReadOnly memory instructionPointer 0 parameterModeDigits with
        | .error e => (memory, inputIter, .error e)
        | .ok (value, pmd1) =>
          match resolveReadOnly memory instructionPointer 1 pmd1 with
          | .error e => (memory, inputIter, .error e)
          | .ok (newAddress, _) =>
            if value = 0 then
              (memory, inputIter, .ok (some (instructionPointer + 3), none))
            else if newAddress < 0 then
              (memory, inputIter, .error (.InvalidMemoryLocation newAddress 0))
            else
              (memory, inputIter, .ok (some newAddress.toNat, none))
    | .JumpIfFalse =>
      if memory.length ≤ instructionPointer + 1 + 2 then
        (memory, inputIter, .error (.NotEnoughParametersForInstruction 6 2
          (instructionPointer + 1 + 2 - memory.length)))
      else
        match resolveReadOnly memory instructionPointer 0 parameterModeDigits with
        | .error e => (memory, inputIter, .error e)
        | .ok (value, pmd1) =>
          match resolveReadOnly memory instructionPointer 1 pmd1 with
          | .error e => (memory, inputIter, .error e)
          | .ok (newAddress, _) =>
            if value = 0 then
              if newAddress < 0 then
                (memory, inputIter, .error (.InvalidMemoryLocation newAddress 0))
              else
                (memory, inputIter, .ok (some newAddress.toNat, none))
            else
              (memory, inputIter, .ok (some (instructionPointer + 3), none))
    | .LessThan =>
      if memory.length ≤ instructionPointer + 1 + 3 then
        (memory, inputIter, .error (.NotEnoughParametersForInstruction 7 3
          (instructionPointer + 1 + 3 - memory.length)))
      else
        match resolveReadOnly memory instructionPointer 0 parameterModeDigits with
        | .error e => (memory, inputIter, .error e)
        | .ok (leftSide, pmd1) =>
          match resolveReadOnly memory instructionPointer 1 pmd1 with
          | .error e => (memory, inputIter, .error e)
          | .ok (rightSide, pmd2) =>
            match resolveWritable memory instructionPointer 2 pmd2 with
            | .error e => (memory, inputIter, .error e)
            | .ok (dest, _) =>
              (memory.set dest (if leftSide < rightSide then 1 else 0), inputIter,
                .ok (some (instructionPointer + 4), none))
    | .Equals =>
      if memory.length ≤ instructionPointer + 1 + 3 then
        (memory, inputIter, .error (.NotEnoughParametersForInstruction 8 3
          (instructionPointer + 1 + 3 - memory.length)))
      else
        match resolveReadOnly memory instructionPointer 0 parameterModeDigits with
        | .error e => (memory, inputIter, .error e)
        | .ok (leftSide, pmd1) =>
          match resolveReadOnly memory instructionPointer 1 pmd1 with
          | .error e => (memory, inputIter, .error e)
          | .ok (rightSide, pmd2) =>
            match resolveWritable memory instructionPointer 2 pmd2 with
            | .error e => (memory, inputIter, .error e)
            | .ok (dest, _) =>
              (memory.set dest (if leftSide = rightSide then 1 else 0), inputIter,
                .ok (some (instructionPointer + 4), none))
    | .End => (memory, inputIter, .ok (none, none))

/-- VM state, from `struct Emulator` in `intcode.rs`. -/
structure Emulator where
  memory : List Int
  instructionPointer : Nat
  inputIter : List (Except EmulatorError Int)
deriving DecidableEq, Repr

/-- Construction from a memory snapshot and an input source
(`Emulator::new`). -/
def Emulator.new (initialMemory : List Int)
    (inputIter : List (Except EmulatorError Int)) : Emulator :=
  ⟨initialMemory, 0, inputIter⟩

/-- One instruction step, from `Emulator::step`: run the current opcode,
propagate its error, report `Done` when no next pointer was produced
(leaving the pointer in place), otherwise store the next pointer and
report `SuccessWithValue` when an output was produced, else `Success`. -/
def Emulator.step (e : Emulator) : Emulator × Except EmulatorError EmulatorResult :=
  match OpCode.run e.memory e.instructionPointer e.inputIter with
  | (memory2, input2, .error err) =>
    (⟨memory2, e.instructionPointer, input2⟩, .error err)
  | (memory2, input2, .ok (none, _)) =>
    (⟨memory2, e.instructionPointer, input2⟩, .ok .Done)
  | (memory2, input2, .ok (some nextInstructionPointer, none)) =>
    (⟨memory2, nextInstructionPointer, input2⟩, .ok .Success)
  | (memory2, input2, .ok (some nextInstructionPointer, some output)) =>
    (⟨memory2, nextInstructionPointer, input2⟩, .ok (.SuccessWithValue output))

/-- Fuelled rendering of `Emulator::run_to_completion`: step until `Done`,
then return the value at Memory[0]; the first error is returned as is.
`none` means the fuel ran out before the loop ended. -/
def Emulator.runToCompletion : Nat → Emulator → Option (Except EmulatorError Int)
  | 0, _ => none
  | fuel + 1, e =>
    match e.step with
    | (_, .error err) => some (.error err)
    | (e2, .ok .Done) => some (.ok (e2.memory.getD 0 0))
    | (e2, .ok .Success) => e2.runToCompletion fuel
    | (e2, .ok (.SuccessWithValue _)) => e2.runToCompletion fuel

/-- Fuelled rendering of the iterator made by `Emulator::into_output_iter`,
pulled to exhaustion: the sequence of items it yields, ending at `Done`
(empty tail) or at the first error (yielded once, ending the sequence).
`none` means the fuel ran out. -/
def Emulator.collectOutputs : Nat → Emulator → Option (List (Except EmulatorError Int))
  | 0, _ => none
  | fuel + 1, e =>
    match e.step with
    | (_, .error err) => some [.error err]
    | (_, .ok .Done) => some []
    | (e2, .ok .Success) => e2.collectOutputs fuel
    | (e2, .ok (.SuccessWithValue value)) =>
      (e2.collectOutputs fuel).map (fun outs => .ok value :: outs)

/-- In-place swap of two list positions, modelling `slice::swap` as used by
`Permutator`; both indices are in bounds at every call site. -/
def listSwap (l : List Int) (i j : Nat) : List Int :=
  (l.set i (l.getD j 0)).set j (l.getD i 0)

/-- Permutation enumerator state, from `struct Permutator` in `day7.rs`. -/
structure Permutator where
  array : List Int
  recursionStack : List (Nat × Nat × Bool)
deriving DecidableEq, Repr

/-- Construction, from `Permutator::new`: the work stack starts with the
single frame (0, 0, unexplored). -/
def Permutator.new (array : List Int) : Permutator :=
  ⟨array, [(0, 0, false)]⟩

/-- Outcome of one iteration of the loop inside `Permutator::next`. -/
inductive PermStep where
  | yield (out : List Int) (next : Permutator)
  | exhausted
  | running (next : Permutator)
deriving Repr

/-- One iteration of the loop body of `Permutator::next`: pop a frame;
an empty stack signals exhaustion; a frame whose start has reached the
last position yields the buffer; a frame whose swap index ran off the end
backtracks; an unexplored frame swaps and pushes the re-entry frame plus a
fresh frame for the suffix; a re-entry frame undoes the swap and retries
with the next swap index. -/
def permLoopStep (p : Permutator) : PermStep :=
  match p.recursionStack with
  | [] => .exhausted
  | (start, swapIndex, explored) :: rest =>
    if p.array.length ≤ start + 1 then
      .yield p.array ⟨p.array, rest⟩
    else if p.array.length ≤ swapIndex then
      .running ⟨p.array, rest⟩
    else if explored = false then
      .running ⟨listSwap p.array start swapIndex,
        (start + 1, start + 1, false) :: (start, swapIndex, true) :: rest⟩
    else
      .running ⟨listSwap p.array start swapIndex, (start, swapIndex + 1, false) :: rest⟩

/-- Fuelled rendering of `Permutator::next`: iterate the loop body until a
permutation is yielded (`some (some _)`), or exhaustion is signalled
(`some none`); `none` means the fuel ran out. -/
def Permutator.next : Nat → Permutator → Option (Option (List Int × Permutator))
  | 0, _ => none
  | fuel + 1, p =>
    match permLoopStep p with
    | .exhausted => some none
    | .yield out p2 => some (some (out, p2))
    | .running p2 => Permutator.next fuel p2

/-- Fuelled collector: every permutation yielded over successive calls of
`Permutator.next`, until exhaustion; `none` means the fuel ran out. -/
def runPerm : Nat → Permutator → Option (List (List Int))
  | 0, _ => none
  | fuel + 1, p =>
    match permLoopStep p with
    | .exhausted => some []
    | .yield out p2 => (runPerm fuel p2).map (fun outs => out :: outs)
    | .running p2 => runPerm fuel p2

/-- The observable behaviour of the enumerator: `Yields p outs` states
that successive `Permutator.next` calls starting from `p` yield exactly
the permutations in `outs`, in order, and then signal exhaustion. -/
inductive Yields : Permutator → List (List Int) → Prop where
  | nil {p : Permutator} : (∃ fuel, p.next fuel = some none) → Yields p []
  | cons {p p2 : Permutator} {out : List Int} {outs : List (List Int)} :
      (∃ fuel, p.next fuel = some (some (out, p2))) → Yields p2 outs →
      Yields p (out :: outs)

/-- Functional specification of the subtree of work done by one unexplored
frame (start, swapIndex): the list of buffers yielded, in order. Mirrors
the recursive swap-based generation that the explicit stack implements. -/
def gen (n : Nat) (a : List Int) (start swapIndex : Nat) : List (List Int) :=
  if n ≤ start + 1 then [a]
  else if n ≤ swapIndex then []
  else
    gen n (listSwap a start swapIndex) (start + 1) (start + 1) ++ gen n a start (swapIndex + 1)
termination_by (n - start, n - swapIndex)
decreasing_by
  · apply Prod.Lex.left
    omega
  · apply Prod.Lex.right
    omega

lemma listSwap_length (l : List Int) (i j : Nat) : (listSwap l i j).length = l.length := by
  simp [listSwap]

lemma take_set_of_le (l : List Int) (n m : Nat) (a : Int) (h : n ≤ m) :
    (l.set m a).take n = l.take n := by
  apply List.ext_getElem?
  intro k
  simp only [List.getElem?_take]
  split
  · rw [List.getElem?_set, if_neg (by omega)]
  · rfl

lemma listSwap_take (l : List Int) (n i j : Nat) (h1 : n ≤ i) (h2 : n ≤ j) :
    (listSwap l i j).take n = l.take n := by
  unfold listSwap
  rw [take_set_of_le _ _ _ _ h2, take_set_of_le _ _ _ _ h1]

lemma listSwap_getD_fst (l : List Int) (i j : Nat) (hi : i < l.length) (hj : j < l.length) :
    (listSwap l i j).getD i 0 = l.getD j 0 := by
  unfold listSwap
  by_cases hij : i = j
  · subst hij
    rw [List.set_set, List.getD_eq_getElem?_getD, List.getElem?_set_self (by simpa using hi)]
    rfl
  · rw [List.getD_eq_getElem?_getD, List.getElem?_set, if_neg (by omega)]
    rw [List.getElem?_set_self hi]
    rfl

lemma listSwap_getD_snd (l : List Int) (i j : Nat) (_hi : i < l.length) (hj : j < l.length) :
    (listSwap l i j).getD j 0 = l.getD i 0 := by
  unfold listSwap
  rw [List.getD_eq_getElem?_getD, List.getElem?_set_self (by simpa using hj)]
  rfl

lemma listSwap_swap (l : List Int) (i j : Nat) (hi : i < l.length) (hj : j < l.length) :
    listSwap (listSwap l i j) i j = l := by
  have hL : (listSwap l i j).length = l.length := listSwap_length l i j
  have ha : (listSwap l i j).getD j 0 = l.getD i 0 := listSwap_getD_snd l i j hi hj
  have hb : (listSwap l i j).getD i 0 = l.getD j 0 := listSwap_getD_fst l i j hi hj
  show ((listSwap l i j).set i ((listSwap l i j).getD j 0)).set j ((listSwap l i j).getD i 0) = l
  rw [ha, hb]
  apply List.ext_getElem?
  intro k
  by_cases hkj : j = k
  · subst hkj
    rw [List.getElem?_set_self (by simp [hL, listSwap]; omega)]
    rw [List.getElem?_eq_getElem hj, List.getD_eq_getElem l 0 hj]
  · rw [List.getElem?_set, if_neg hkj]
    by_cases hki : i = k
    · subst hki
      rw [List.getElem?_set_self (by simpa [hL] using hi)]
      rw [List.getElem?_eq_getElem hi, List.getD_eq_getElem l 0 hi]
    · rw [List.getElem?_set, if_neg hki]
      unfold listSwap
      rw [List.getElem?_set, if_neg hkj, List.getElem?_set, if_neg hki]

lemma listSwap_perm (l : List Int) (i j : Nat) (hi : i < l.length) (hj : j < l.length) :
    (listSwap l i j).Perm l := by
  rw [List.perm_iff_count]
  intro b
  unfold listSwap
  rw [List.getD_eq_getElem l 0 hj, List.getD_eq_getElem l 0 hi]
  rw [List.count_set _ _ _ _ (by simpa using hj), List.count_set _ _ _ _ hi]
  rw [List.getElem_set]
  have hci : l[i] = b → 1 ≤ List.count b l := by
    intro hb
    have : b ∈ l := hb ▸ List.getElem_mem hi
    simpa [List.count_pos_iff] using this
  have hcj : l[j] = b → 1 ≤ List.count b l := by
    intro hb
    have : b ∈ l := hb ▸ List.getElem_mem hj
    simpa [List.count_pos_iff] using this
  simp only [beq_iff_eq]
  split_ifs <;> simp_all


lemma runPerm_mono (fuel : Nat) (p : Permutator) (outs : List (List Int))
    (h : runPerm fuel p = some outs) : runPerm (fuel + 1) p = some outs := by
  induction fuel generalizing p outs with
  | zero => simp [runPerm] at h
  | succ fuel ih =>
    rw [runPerm] at h
    rw [runPerm]
    match hs : permLoopStep p with
    | .exhausted => rw [hs] at h; simpa using h
    | .yield out p2 =>
      rw [hs] at h
      simp only [Option.map_eq_some'] at h
      obtain ⟨outs2, h2, rfl⟩ := h
      simp [ih _ _ h2]
    | .running p2 => rw [hs] at h; exact ih _ _ h

lemma runPerm_frame (n : Nat) (a : List Int) (start swapIndex : Nat) :
    ∀ (rest : List (Nat × Nat × Bool)) (l : List (List Int)) (fuel : Nat), a.length = n →
      runPerm fuel ⟨a, rest⟩ = some l →
      ∃ fuel2, runPerm fuel2 ⟨a, (start, swapIndex, false) :: rest⟩ =
        some (gen n a start swapIndex ++ l) := by
  induction a, start, swapIndex using gen.induct n with
  | case1 a start swapIndex hterm =>
    intro rest l fuel hlen h
    refine ⟨fuel + 1, ?_⟩
    rw [runPerm]
    have hs : permLoopStep ⟨a, (start, swapIndex, false) :: rest⟩ =
        .yield a ⟨a, rest⟩ := by
      rw [permLoopStep]
      simp only
      rw [if_pos (by omega)]
    simp only [hs, h, Option.map_some']
    rw [gen, if_pos hterm]
    rfl
  | case2 a start swapIndex hterm hsi =>
    intro rest l fuel hlen h
    refine ⟨fuel + 1, ?_⟩
    rw [runPerm]
    have hs : permLoopStep ⟨a, (start, swapIndex, false) :: rest⟩ =
        .running ⟨a, rest⟩ := by
      rw [permLoopStep]
      simp only
      rw [if_neg (by omega), if_pos (by omega)]
    simp only [hs, h]
    rw [gen, if_neg hterm, if_pos hsi]
    rfl
  | case3 a start swapIndex hterm hsi ih1 ih2 =>
    intro rest l fuel hlen h
    have hstart : start < a.length := by omega
    have hswap : swapIndex < a.length := by omega
    obtain ⟨f1, hf1⟩ := ih2 rest l fuel hlen h
    have hstep2 : runPerm (f1 + 1) ⟨listSwap a start swapIndex, (start, swapIndex, true) :: rest⟩ =
        some (gen n a start (swapIndex + 1) ++ l) := by
      rw [runPerm]
      have hs : permLoopStep ⟨listSwap a start swapIndex, (start, swapIndex, true) :: rest⟩ =
          .running ⟨a, (start, swapIndex + 1, false) :: rest⟩ := by
        rw [permLoopStep]
        simp only [listSwap_length]
        rw [if_neg (by omega), if_neg (by omega), if_neg (by simp)]
        rw [listSwap_swap a start swapIndex hstart hswap]
      simp only [hs, hf1]
    obtain ⟨f2, hf2⟩ := ih1 ((start, swapIndex, true) :: rest)
      (gen n a start (swapIndex + 1) ++ l) (f1 + 1) (by simp [listSwap_length, hlen]) hstep2
    refine ⟨f2 + 1, ?_⟩
    rw [runPerm]
    have hs : permLoopStep ⟨a, (start, swapIndex, false) :: rest⟩ =
        .running ⟨listSwap a start swapIndex,
          (start + 1, start + 1, false) :: (start, swapIndex, true) :: rest⟩ := by
      rw [permLoopStep]
      simp only
      rw [if_neg (by omega), if_neg (by omega)]
      simp
    simp only [hs, hf2]
    conv_rhs => rw [gen]
    rw [if_neg hterm, if_neg hsi]
    simp

lemma runPerm_new (a : List Int) :
    ∃ fuel, runPerm fuel (Permutator.new a) = some (gen a.length a 0 0) := by
  have h0 : runPerm 1 ⟨a, []⟩ = some [] := by
    rw [runPerm]
    rfl
  obtain ⟨f, hf⟩ := runPerm_frame a.length a 0 0 [] [] 1 rfl h0
  exact ⟨f, by simpa using hf⟩

lemma next_mono (fuel : Nat) (p : Permutator) (r : Option (List Int × Permutator))
    (h : p.next fuel = some r) : p.next (fuel + 1) = some r := by
  induction fuel generalizing p with
  | zero => simp [Permutator.next] at h
  | succ fuel ih =>
    rw [Permutator.next] at h
    rw [Permutator.next]
    match hs : permLoopStep p with
    | .exhausted => rw [hs] at h; simpa using h
    | .yield out p2 => rw [hs] at h; simpa using h
    | .running p2 => rw [hs] at h; exact ih _ h

lemma yields_of_running (p p2 : Permutator) (outs : List (List Int))
    (hs : permLoopStep p = .running p2) (hy : Yields p2 outs) : Yields p outs := by
  cases hy with
  | nil h =>
    obtain ⟨f, hf⟩ := h
    refine Yields.nil ⟨f + 1, ?_⟩
    rw [Permutator.next, hs]
    exact hf
  | cons h hy2 =>
    obtain ⟨f, hf⟩ := h
    refine Yields.cons ⟨f + 1, ?_⟩ hy2
    rw [Permutator.next, hs]
    exact hf

lemma runPerm_yields (fuel : Nat) (p : Permutator) (outs : List (List Int))
    (h : runPerm fuel p = some outs) : Yields p outs := by
  induction fuel generalizing p outs with
  | zero => simp [runPerm] at h
  | succ fuel ih =>
    rw [runPerm] at h
    match hs : permLoopStep p with
    | .exhausted =>
      rw [hs] at h
      simp only [Option.some.injEq] at h
      subst h
      exact Yields.nil ⟨1, by rw [Permutator.next, hs]⟩
    | .yield out p2 =>
      rw [hs] at h
      simp only [Option.map_eq_some'] at h
      obtain ⟨outs2, h2, rfl⟩ := h
      exact Yields.cons ⟨1, by rw [Permutator.next, hs]⟩ (ih _ _ h2)
    | .running p2 =>
      rw [hs] at h
      exact yields_of_running p p2 outs hs (ih _ _ h)

lemma gen_length (n : Nat) (a : List Int) (start swapIndex : Nat) :
    (gen n a start swapIndex).length =
      if n ≤ start + 1 then 1 else (n - swapIndex) * Nat.factorial (n - start - 1) := by
  induction a, start, swapIndex using gen.induct n with
  | case1 a start swapIndex hterm =>
    rw [gen, if_pos hterm, if_pos hterm]
    rfl
  | case2 a start swapIndex hterm hsi =>
    rw [gen, if_neg hterm, if_pos hsi, if_neg hterm]
    have h0 : n - swapIndex = 0 := by omega
    simp [h0]
  | case3 a start swapIndex hterm hsi ih1 ih2 =>
    conv_lhs => rw [gen, if_neg hterm, if_neg hsi]
    conv_rhs => rw [if_neg hterm]
    rw [List.length_append, ih1, ih2, if_neg hterm]
    have hf : (if n ≤ start + 1 + 1 then 1
        else (n - (start + 1)) * (n - (start + 1) - 1).factorial) =
        (n - start - 1).factorial := by
      split_ifs with h2
      · have h3 : n - start - 1 = 1 := by omega
        rw [h3]
        rfl
      · have h3 : n - start - 1 = (n - (start + 1) - 1) + 1 := by omega
        rw [h3, Nat.factorial_succ]
        congr 1
    rw [hf]
    have h4 : n - swapIndex = (n - (swapIndex + 1)) + 1 := by omega
    rw [h4, Nat.succ_mul, Nat.add_comm]

lemma gen_perm (n : Nat) (a : List Int) (start swapIndex : Nat) :
    a.length = n → ∀ l ∈ gen n a start swapIndex, l.Perm a := by
  induction a, start, swapIndex using gen.induct n with
  | case1 a start swapIndex hterm =>
    intro hlen l hl
    rw [gen, if_pos hterm] at hl
    simp only [List.mem_singleton] at hl
    subst hl
    exact List.Perm.refl l
  | case2 a start swapIndex hterm hsi =>
    intro hlen l hl
    rw [gen, if_neg hterm, if_pos hsi] at hl
    simp at hl
  | case3 a start swapIndex hterm hsi ih1 ih2 =>
    intro hlen l hl
    rw [gen, if_neg hterm, if_neg hsi] at hl
    rcases List.mem_append.mp hl with hl1 | hl2
    · have hp := ih1 (by rw [listSwap_length, hlen]) l hl1
      exact hp.trans (listSwap_perm a start swapIndex (by omega) (by omega))
    · exact ih2 hlen l hl2

lemma gen_take (n : Nat) (a : List Int) (start swapIndex : Nat) :
    a.length = n → start ≤ swapIndex → ∀ l ∈ gen n a start swapIndex,
      l.take start = a.take start := by
  induction a, start, swapIndex using gen.induct n with
  | case1 a start swapIndex hterm =>
    intro hlen hle l hl
    rw [gen, if_pos hterm] at hl
    simp only [List.mem_singleton] at hl
    subst hl
    rfl
  | case2 a start swapIndex hterm hsi =>
    intro hlen hle l hl
    rw [gen, if_neg hterm, if_pos hsi] at hl
    simp at hl
  | case3 a start swapIndex hterm hsi ih1 ih2 =>
    intro hlen hle l hl
    rw [gen, if_neg hterm, if_neg hsi] at hl
    rcases List.mem_append.mp hl with hl1 | hl2
    · have ht := ih1 (by rw [listSwap_length, hlen]) (le_refl (start + 1)) l hl1
      have h1 : l.take start = (l.take (start + 1)).take start := by
        rw [List.take_take]
        congr 1
        omega
      rw [h1, ht, List.take_take]
      have h2 : start ⊓ (start + 1) = start := by omega
      rw [h2]
      exact listSwap_take a start start swapIndex (le_refl start) hle
    · exact ih2 hlen (by omega) l hl2

lemma getD_eq_of_take_eq (l l2 : List Int) (m k : Nat) (h : l.take m = l2.take m)
    (hk : k < m) : l.getD k 0 = l2.getD k 0 := by
  have h1 : (l.take m)[k]? = (l2.take m)[k]? := by rw [h]
  rw [List.getElem?_take, List.getElem?_take, if_pos hk, if_pos hk] at h1
  rw [List.getD_eq_getElem?_getD, List.getD_eq_getElem?_getD, h1]

lemma gen_getD (n : Nat) (a : List Int) (start swapIndex : Nat) :
    a.length = n → start ≤ swapIndex → start + 1 < n →
      ∀ l ∈ gen n a start swapIndex,
        ∃ k, swapIndex ≤ k ∧ k < n ∧ l.getD start 0 = a.getD k 0 := by
  induction a, start, swapIndex using gen.induct n with
  | case1 a start swapIndex hterm =>
    intro hlen hle hlt l hl
    omega
  | case2 a start swapIndex hterm hsi =>
    intro hlen hle hlt l hl
    rw [gen, if_neg hterm, if_pos hsi] at hl
    simp at hl
  | case3 a start swapIndex hterm hsi ih1 ih2 =>
    intro hlen hle hlt l hl
    rw [gen, if_neg hterm, if_neg hsi] at hl
    rcases List.mem_append.mp hl with hl1 | hl2
    · refine ⟨swapIndex, le_refl swapIndex, by omega, ?_⟩
      have ht := gen_take n (listSwap a start swapIndex) (start + 1) (start + 1)
        (by rw [listSwap_length, hlen]) (le_refl (start + 1)) l hl1
      have h1 : l.getD start 0 = (listSwap a start swapIndex).getD start 0 :=
        getD_eq_of_take_eq _ _ (start + 1) start ht (by omega)
      rw [h1]
      exact listSwap_getD_fst a start swapIndex (by omega) (by omega)
    · obtain ⟨k, hk1, hk2, hk3⟩ := ih2 hlen (by omega) hlt l hl2
      exact ⟨k, by omega, hk2, hk3⟩

lemma gen_nodup (n : Nat) (a : List Int) (start swapIndex : Nat) :
    a.length = n → start ≤ swapIndex → a.Nodup → (gen n a start swapIndex).Nodup := by
  induction a, start, swapIndex using gen.induct n with
  | case1 a start swapIndex hterm =>
    intro hlen hle hnd
    rw [gen, if_pos hterm]
    simp
  | case2 a start swapIndex hterm hsi =>
    intro hlen hle hnd
    rw [gen, if_neg hterm, if_pos hsi]
    simp
  | case3 a start swapIndex hterm hsi ih1 ih2 =>
    intro hlen hle hnd
    rw [gen, if_neg hterm, if_neg hsi]
    have hstart : start < a.length := by omega
    have hswap : swapIndex < a.length := by omega
    have hnd1 : (listSwap a start swapIndex).Nodup :=
      ((listSwap_perm a start swapIndex hstart hswap).symm).nodup hnd
    apply List.Nodup.append
    · exact ih1 (by rw [listSwap_length, hlen]) (le_refl (start + 1)) hnd1
    · exact ih2 hlen (by omega) hnd
    · intro l hl1 hl2
      have ht := gen_take n (listSwap a start swapIndex) (start + 1) (start + 1)
        (by rw [listSwap_length, hlen]) (le_refl (start + 1)) l hl1
      have h1 : l.getD start 0 = a.getD swapIndex 0 := by
        have := getD_eq_of_take_eq _ _ (start + 1) start ht (by omega)
        rw [this]
        exact listSwap_getD_fst a start swapIndex hstart hswap
      obtain ⟨k, hk1, hk2, hk3⟩ := gen_getD n a start (swapIndex + 1) hlen (by omega)
        (by omega) l hl2
      have heq : a.getD swapIndex 0 = a.getD k 0 := by rw [← h1, hk3]
      rw [List.getD_eq_getElem a 0 hswap, List.getD_eq_getElem a 0 (by omega)] at heq
      have : swapIndex = k := (List.Nodup.getElem_inj_iff hnd).mp heq
      omega

/-- C8: for every finite ordered set of distinct integers, the permutation
enumerator constructed from it yields, over successive next calls, exactly
factorial-many orderings, each a rearrangement (permutation) of the input
set, with no ordering repeated, and then signals exhaustion. -/
theorem permutator_yields_all_permutations (a : List Int) (hnd : a.Nodup) :
    ∃ outs : List (List Int),
      Yields (Permutator.new a) outs ∧
      outs.length = Nat.factorial a.length ∧
      (∀ l ∈ outs, l.Perm a) ∧
      outs.Nodup := by
  obtain ⟨fuel, hrun⟩ := runPerm_new a
  refine ⟨gen a.length a 0 0, runPerm_yields fuel _ _ hrun, ?_, gen_perm a.length a 0 0 rfl,
    gen_nodup a.length a 0 0 rfl (le_refl 0) hnd⟩
  rw [gen_length]
  split_ifs with h1
  · interval_cases h : a.length <;> rfl
  · have h2 : a.length = (a.length - 1) + 1 := by omega
    rw [Nat.sub_zero, h2, Nat.factorial_succ]
    congr 1

/-- Witness for C8 at the concrete input [0, 1, 2]. -/
theorem permutator_yields_all_permutations_witness :
    ∃ outs : List (List Int),
      Yields (Permutator.new [0, 1, 2]) outs ∧
      outs.length = Nat.factorial ([0, 1, 2] : List Int).length ∧
      (∀ l ∈ outs, l.Perm [0, 1, 2]) ∧
      outs.Nodup :=
  permutator_yields_all_permutations [0, 1, 2] (by decide)

/-- C6: running the program [1,9,10,3,2,3,11,0,99,30,40,50] to completion
with an empty input source succeeds and returns 3500, the value left at
Memory[0] when the machine halts. -/
theorem run_example_program_3500 :
    Emulator.runToCompletion 10
      (Emulator.new [1, 9, 10, 3, 2, 3, 11, 0, 99, 30, 40, 50] []) =
      some (.ok 3500) := by
  rfl

/-- C7: the program [3,9,8,9,10,9,4,9,99,-1,8] compares its single input
against 8: pulled through the lazy output sequence it produces exactly
the output 1 for input 8, and exactly the output 0 for inputs 7 and 9. -/
theorem equals_program_outputs :
    Emulator.collectOutputs 20
        (Emulator.new [3, 9, 8, 9, 10, 9, 4, 9, 99, -1, 8] [.ok 8]) = some [.ok 1] ∧
    Emulator.collectOutputs 20
        (Emulator.new [3, 9, 8, 9, 10, 9, 4, 9, 99, -1, 8] [.ok 7]) = some [.ok 0] ∧
    Emulator.collectOutputs 20
        (Emulator.new [3, 9, 8, 9, 10, 9, 4, 9, 99, -1, 8] [.ok 9]) = some [.ok 0] := by
  refine ⟨?_, ?_, ?_⟩ <;> rfl


lemma resolveWritable_lt (memory : List Int) (instructionPointer idx : Nat)
    (parameterModeDigits : Int) (dest : Nat) (p : Int)
    (h : resolveWritable memory instructionPointer idx parameterModeDigits = .ok (dest, p)) :
    dest < memory.length := by
  unfold resolveWritable at h
  split at h
  · exact absurd h (by simp)
  · simp only [] at h
    split at h
    · exact absurd h (by simp)
    · split at h
      · simp only [Except.ok.injEq, Prod.mk.injEq] at h
        obtain ⟨rfl, rfl⟩ := h
        rename_i hsome
        exact List.getElem?_eq_some_iff.mp hsome |>.1
      · exact absurd h (by simp)
  · exact absurd h (by simp)

/-- C1: for every well-formed Add (opcode 1) or Multiply (opcode 2)
instruction, with valid parameter modes and in-range addresses (captured
by the successful resolution hypotheses) and enough parameter cells
(the bounds guard passes), step changes Memory only at the resolved
destination address, writing there the sum (respectively product) of the
two resolved read-only operands, and sets the instruction pointer to
exactly the old pointer plus 4. -/
theorem step_add_multiply_frame
    (memory : List Int) (instructionPointer : Nat)
    (input : List (Except EmulatorError Int))
    (w c v1 v2 p1 p2 p3 : Int) (dest : Nat)
    (hw : memory[instructionPointer]? = some w)
    (hc : c = 1 ∨ c = 2)
    (hcode : w.tmod 100 = c)
    (hguard : instructionPointer + 4 < memory.length)
    (h1 : resolveReadOnly memory instructionPointer 0 (w.tdiv 100) = .ok (v1, p1))
    (h2 : resolveReadOnly memory instructionPointer 1 p1 = .ok (v2, p2))
    (h3 : resolveWritable memory instructionPointer 2 p2 = .ok (dest, p3)) :
    Emulator.step ⟨memory, instructionPointer, input⟩ =
        (⟨memory.set dest (if c = 1 then v1 + v2 else v1 * v2),
          instructionPointer + 4, input⟩, .ok .Success) ∧
      dest < memory.length ∧
      (memory.set dest (if c = 1 then v1 + v2 else v1 * v2)).length = memory.length ∧
      (memory.set dest (if c = 1 then v1 + v2 else v1 * v2)).getD dest 0 =
        (if c = 1 then v1 + v2 else v1 * v2) ∧
      (∀ j, j ≠ dest →
        (memory.set dest (if c = 1 then v1 + v2 else v1 * v2)).getD j 0 = memory.getD j 0) := by
  have hdlt : dest < memory.length :=
    resolveWritable_lt memory instructionPointer 2 p2 dest p3 h3
  have hg : ¬ (memory.length ≤ instructionPointer + 1 + 3) := by omega
  have hframe : ∀ x : Int, (memory.set dest x).length = memory.length ∧
      (memory.set dest x).getD dest 0 = x ∧
      (∀ j, j ≠ dest → (memory.set dest x).getD j 0 = memory.getD j 0) := by
    intro x
    refine ⟨List.length_set memory dest x, ?_, ?_⟩
    · rw [List.getD_eq_getElem?_getD, List.getElem?_set_self hdlt]
      rfl
    · intro j hj
      rw [List.getD_eq_getElem?_getD, List.getD_eq_getElem?_getD,
        List.getElem?_set_ne (Ne.symm hj)]
  rcases hc with rfl | rfl
  · have hdec : getCurrentInstruction memory instructionPointer = .ok (.Add, w.tdiv 100) := by
      simp [getCurrentInstruction, hw, hcode]
    refine ⟨?_, hdlt, (hframe _).1, (hframe _).2.1, (hframe _).2.2⟩
    simp [Emulator.step, OpCode.run, hdec, hg, h1, h2, h3]
  · have hdec : getCurrentInstruction memory instructionPointer = .ok (.Multiply, w.tdiv 100) := by
      simp [getCurrentInstruction, hw, hcode]
    refine ⟨?_, hdlt, (hframe _).1, (hframe _).2.1, (hframe _).2.2⟩
    simp [Emulator.step, OpCode.run, hdec, hg, h1, h2, h3]

/-- Witness for C1 on the Add instruction [1101, 2, 3, 5, ...]. -/
theorem step_add_multiply_frame_witness :
    Emulator.step ⟨[1101, 2, 3, 5, 99, 0], 0, []⟩ =
      (⟨([1101, 2, 3, 5, 99, 0] : List Int).set 5 (if (1 : Int) = 1 then 2 + 3 else 2 * 3),
        0 + 4, []⟩, .ok .Success) :=
  (step_add_multiply_frame [1101, 2, 3, 5, 99, 0] 0 [] 1101 1 2 3 1 0 0 5
    (by rfl) (Or.inl rfl) (by decide) (by decide) (by rfl) (by rfl) (by rfl)).1

/-- C10: for a JumpIfTrue (opcode 5) or JumpIfFalse (opcode 6)
instruction whose condition holds, a negative resolved target fails with
InvalidMemoryLocation carrying the target value and reported position 0,
leaving Memory unchanged; a non-negative target is not bounds-checked at
jump time, so the jump succeeds even past the end of Memory, and only the
following step fails with InstructionPointerOutOfBounds. -/
theorem step_jump_semantics
    (memory : List Int) (instructionPointer : Nat)
    (input : List (Except EmulatorError Int))
    (w v target p1 p2 : Int)
    (hw : memory[instructionPointer]? = some w)
    (hguard : instructionPointer + 3 < memory.length)
    (h1 : resolveReadOnly memory instructionPointer 0 (w.tdiv 100) = .ok (v, p1))
    (h2 : resolveReadOnly memory instructionPointer 1 p1 = .ok (target, p2))
    (hcond : (w.tmod 100 = 5 ∧ v ≠ 0) ∨ (w.tmod 100 = 6 ∧ v = 0)) :
    (target < 0 →
      Emulator.step ⟨memory, instructionPointer, input⟩ =
        (⟨memory, instructionPointer, input⟩, .error (.InvalidMemoryLocation target 0))) ∧
    (0 ≤ target →
      Emulator.step ⟨memory, instructionPointer, input⟩ =
        (⟨memory, target.toNat, input⟩, .ok .Success)) ∧
    (∀ p : Nat, memory.length ≤ p →
      Emulator.step ⟨memory, p, input⟩ =
        (⟨memory, p, input⟩, .error (.InstructionPointerOutOfBounds p))) := by
  have hg : ¬ (memory.length ≤ instructionPointer + 1 + 2) := by omega
  have hoob : ∀ p : Nat, memory.length ≤ p →
      Emulator.step ⟨memory, p, input⟩ =
        (⟨memory, p, input⟩, .error (.InstructionPointerOutOfBounds p)) := by
    intro p hp
    have hnone : memory[p]? = none := List.getElem?_eq_none hp
    simp [Emulator.step, OpCode.run, getCurrentInstruction, hnone]
  rcases hcond with ⟨hcode, hv⟩ | ⟨hcode, hv⟩
  · have hdec : getCurrentInstruction memory instructionPointer = .ok (.JumpIfTrue, w.tdiv 100) := by
      simp [getCurrentInstruction, hw, hcode]
    refine ⟨?_, ?_, hoob⟩ <;> intro ht <;>
      simp [Emulator.step, OpCode.run, hdec, hg, h1, h2, hv, ht, not_lt_of_ge ht]
  · have hdec : getCurrentInstruction memory instructionPointer = .ok (.JumpIfFalse, w.tdiv 100) := by
      simp [getCurrentInstruction, hw, hcode]
    refine ⟨?_, ?_, hoob⟩ <;> intro ht <;>
      simp [Emulator.step, OpCode.run, hdec, hg, h1, h2, hv, ht, not_lt_of_ge ht]

/-- Witness for C10 on the taken jump [1105, 1, -5, 99] with negative target. -/
theorem step_jump_semantics_witness :
    Emulator.step ⟨[1105, 1, -5, 99], 0, []⟩ =
      (⟨[1105, 1, -5, 99], 0, []⟩, .error (.InvalidMemoryLocation (-5) 0)) :=
  (step_jump_semantics [1105, 1, -5, 99] 0 [] 1105 1 (-5) 1 0 (by rfl) (by decide)
    (by rfl) (by rfl) (Or.inl ⟨by decide, by decide⟩)).1 (by decide)


/-- C5 counterexample: in the Add program [10001, 100, 0, 0, 0] the
writable destination parameter has mode digit 1, yet step fails with
InvalidMemoryLocation from the earlier position-mode operand, not with
UnexpectedParameterModeForWritable, refuting the claim that every
instruction whose writable parameter is declared Immediate fails with
UnexpectedParameterModeForWritable. -/
theorem writable_immediate_not_always_reported :
    ((((10001 : Int).tdiv 100).tdiv 10).tdiv 10).tmod 10 = 1 ∧
    Emulator.step ⟨[10001, 100, 0, 0, 0], 0, []⟩ =
      (⟨[10001, 100, 0, 0, 0], 0, []⟩, .error (.InvalidMemoryLocation 100 1)) :=
  ⟨by decide, by rfl⟩

/-- C5 amended: whenever parameter resolution reaches a writable
parameter whose next mode digit is 1 (Immediate), it fails with
UnexpectedParameterModeForWritable carrying mode value 1 and the slot
position, with no fallback that writes anywhere; in particular an Input
instruction whose single (writable) parameter is declared Immediate
always fails this way with the state unchanged. Errors of earlier
parameters are reported first, which is what the counterexample exhibits. -/
theorem writable_immediate_always_fails :
    (∀ (memory : List Int) (instructionPointer idx : Nat) (parameterModeDigits : Int),
      parameterModeDigits.tmod 10 = 1 →
      resolveWritable memory instructionPointer idx parameterModeDigits =
        .error (.UnexpectedParameterModeForWritable 1 (instructionPointer + idx + 1))) ∧
    (∀ (memory : List Int) (instructionPointer : Nat)
        (input : List (Except EmulatorError Int)) (w : Int),
      memory[instructionPointer]? = some w → w.tmod 100 = 3 →
      instructionPointer + 2 < memory.length → (w.tdiv 100).tmod 10 = 1 →
      Emulator.step ⟨memory, instructionPointer, input⟩ =
        (⟨memory, instructionPointer, input⟩,
          .error (.UnexpectedParameterModeForWritable 1 (instructionPointer + 1)))) := by
  constructor
  · intro memory instructionPointer idx parameterModeDigits h
    simp [resolveWritable, parameterModeOfDigit, h]
  · intro memory instructionPointer input w hw hcode hlen hdigit
    have hdec : getCurrentInstruction memory instructionPointer = .ok (.Input, w.tdiv 100) := by
      simp [getCurrentInstruction, hw, hcode]
    have hg : ¬ (memory.length ≤ instructionPointer + 1 + 1) := by omega
    have hres : resolveWritable memory instructionPointer 0 (w.tdiv 100) =
        .error (.UnexpectedParameterModeForWritable 1 (instructionPointer + 0 + 1)) := by
      simp [resolveWritable, parameterModeOfDigit, hdigit]
    simp [Emulator.step, OpCode.run, hdec, hg, hres]

/-- Witness for the amended C5. -/
theorem writable_immediate_always_fails_witness :
    resolveWritable [] 0 0 1 = .error (.UnexpectedParameterModeForWritable 1 (0 + 0 + 1)) ∧
    Emulator.step ⟨[103, 7, 99], 0, []⟩ =
      (⟨[103, 7, 99], 0, []⟩, .error (.UnexpectedParameterModeForWritable 1 (0 + 1))) :=
  ⟨writable_immediate_always_fails.1 [] 0 0 1 (by decide),
   writable_immediate_always_fails.2 [103, 7, 99] 0 [] 103 (by rfl) (by decide)
     (by decide) (by decide)⟩

lemma tmod_nonpos_of_nonpos (a b : Int) (h : a ≤ 0) : a.tmod b ≤ 0 := by
  match a, b with
  | .ofNat m, b =>
    have hm : m = 0 := by
      simp only [Int.ofNat_eq_coe] at h
      omega
    subst hm
    cases b <;> simp [Int.tmod]
  | .negSucc m, .ofNat n =>
    show -(Int.ofNat ((m + 1) % n)) ≤ 0
    simp only [Int.ofNat_eq_coe]
    omega
  | .negSucc m, .negSucc n =>
    show -(Int.ofNat ((m + 1) % (n + 1))) ≤ 0
    simp only [Int.ofNat_eq_coe]
    omega

/-- C3 counterexample: the instruction word -1 has mathematical value
mod 100 equal to 99, so the claim says it decodes to End; the code
instead computes the Rust truncated remainder, which is -1, and step
fails with InvalidInstruction(-1, 0). -/
theorem negative_word_not_mathematical_mod :
    ((-1 : Int) % 100 = 99) ∧
    Emulator.step ⟨[-1], 0, []⟩ = (⟨[-1], 0, []⟩, .error (.InvalidInstruction (-1) 0)) :=
  ⟨by decide, by rfl⟩

/-- C3 amended: the decoded opcode is the truncated remainder of the
word by 100 (keeping the sign of the word, as in Rust): decoding succeeds
with the matching variant exactly when that remainder is one of
1..8 or 99, any other word fails with InvalidInstruction carrying the
word and the position, and every negative word fails that way because its
truncated remainder is nonpositive. -/
theorem decode_is_truncated_remainder
    (memory : List Int) (instructionPointer : Nat)
    (input : List (Except EmulatorError Int)) (w : Int)
    (hw : memory[instructionPointer]? = some w) :
    ((∃ op pmd, getCurrentInstruction memory instructionPointer = .ok (op, pmd) ∧
        OpCode.toOpcode op = w.tmod 100) ↔
      (w.tmod 100 = 1 ∨ w.tmod 100 = 2 ∨ w.tmod 100 = 3 ∨ w.tmod 100 = 4 ∨
       w.tmod 100 = 5 ∨ w.tmod 100 = 6 ∨ w.tmod 100 = 7 ∨ w.tmod 100 = 8 ∨
       w.tmod 100 = 99)) ∧
    (¬ (w.tmod 100 = 1 ∨ w.tmod 100 = 2 ∨ w.tmod 100 = 3 ∨ w.tmod 100 = 4 ∨
        w.tmod 100 = 5 ∨ w.tmod 100 = 6 ∨ w.tmod 100 = 7 ∨ w.tmod 100 = 8 ∨
        w.tmod 100 = 99) →
      Emulator.step ⟨memory, instructionPointer, input⟩ =
        (⟨memory, instructionPointer, input⟩,
          .error (.InvalidInstruction w instructionPointer))) ∧
    (w < 0 →
      Emulator.step ⟨memory, instructionPointer, input⟩ =
        (⟨memory, instructionPointer, input⟩,
          .error (.InvalidInstruction w instructionPointer))) := by
  have herr : ¬ (w.tmod 100 = 1 ∨ w.tmod 100 = 2 ∨ w.tmod 100 = 3 ∨ w.tmod 100 = 4 ∨
        w.tmod 100 = 5 ∨ w.tmod 100 = 6 ∨ w.tmod 100 = 7 ∨ w.tmod 100 = 8 ∨
        w.tmod 100 = 99) →
      Emulator.step ⟨memory, instructionPointer, input⟩ =
        (⟨memory, instructionPointer, input⟩,
          .error (.InvalidInstruction w instructionPointer)) := by
    intro hc
    simp only [not_or] at hc
    obtain ⟨n1, n2, n3, n4, n5, n6, n7, n8, n9⟩ := hc
    have hdec : getCurrentInstruction memory instructionPointer =
        .error (.InvalidInstruction w instructionPointer) := by
      simp [getCurrentInstruction, hw, n1, n2, n3, n4, n5, n6, n7, n8, n9]
    simp [Emulator.step, OpCode.run, hdec]
  refine ⟨⟨?_, ?_⟩, herr, ?_⟩
  · rintro ⟨op, pmd, hdec, hop⟩
    simp only [getCurrentInstruction, hw] at hdec
    split_ifs at hdec <;> simp_all [OpCode.toOpcode]
  · intro hc
    rcases hc with h | h | h | h | h | h | h | h | h
    · exact ⟨.Add, w.tdiv 100, by simp [getCurrentInstruction, hw, h], by simp [OpCode.toOpcode, h]⟩
    · exact ⟨.Multiply, w.tdiv 100, by simp [getCurrentInstruction, hw, h], by simp [OpCode.toOpcode, h]⟩
    · exact ⟨.Input, w.tdiv 100, by simp [getCurrentInstruction, hw, h], by simp [OpCode.toOpcode, h]⟩
    · exact ⟨.Output, w.tdiv 100, by simp [getCurrentInstruction, hw, h], by simp [OpCode.toOpcode, h]⟩
    · exact ⟨.JumpIfTrue, w.tdiv 100, by simp [getCurrentInstruction, hw, h], by simp [OpCode.toOpcode, h]⟩
    · exact ⟨.JumpIfFalse, w.tdiv 100, by simp [getCurrentInstruction, hw, h], by simp [OpCode.toOpcode, h]⟩
    · exact ⟨.LessThan, w.tdiv 100, by simp [getCurrentInstruction, hw, h], by simp [OpCode.toOpcode, h]⟩
    · exact ⟨.Equals, w.tdiv 100, by simp [getCurrentInstruction, hw, h], by simp [OpCode.toOpcode, h]⟩
    · exact ⟨.End, w.tdiv 100, by simp [getCurrentInstruction, hw, h], by simp [OpCode.toOpcode, h]⟩
  · intro hneg
    apply herr
    have hle : w.tmod 100 ≤ 0 := tmod_nonpos_of_nonpos w 100 (by omega)
    omega

/-- Witness for the amended C3. -/
theorem decode_is_truncated_remainder_witness :
    ((∃ op pmd, getCurrentInstruction [105] 0 = .ok (op, pmd) ∧
        OpCode.toOpcode op = (105 : Int).tmod 100) ↔
      ((105 : Int).tmod 100 = 1 ∨ (105 : Int).tmod 100 = 2 ∨ (105 : Int).tmod 100 = 3 ∨
       (105 : Int).tmod 100 = 4 ∨ (105 : Int).tmod 100 = 5 ∨ (105 : Int).tmod 100 = 6 ∨
       (105 : Int).tmod 100 = 7 ∨ (105 : Int).tmod 100 = 8 ∨ (105 : Int).tmod 100 = 99)) ∧
    (¬ ((105 : Int).tmod 100 = 1 ∨ (105 : Int).tmod 100 = 2 ∨ (105 : Int).tmod 100 = 3 ∨
        (105 : Int).tmod 100 = 4 ∨ (105 : Int).tmod 100 = 5 ∨ (105 : Int).tmod 100 = 6 ∨
        (105 : Int).tmod 100 = 7 ∨ (105 : Int).tmod 100 = 8 ∨ (105 : Int).tmod 100 = 99) →
      Emulator.step ⟨[105], 0, []⟩ =
        (⟨[105], 0, []⟩, .error (.InvalidInstruction 105 0))) ∧
    ((105 : Int) < 0 →
      Emulator.step ⟨[105], 0, []⟩ =
        (⟨[105], 0, []⟩, .error (.InvalidInstruction 105 0))) :=
  decode_is_truncated_remainder [105] 0 [] 105 (by rfl)

lemma parameterModeOfDigit_error_shape (d : Int) (pos : Nat) (e : EmulatorError)
    (h : parameterModeOfDigit d pos = .error e) : e = .InvalidParameterMode d pos := by
  unfold parameterModeOfDigit at h
  split_ifs at h <;> simp_all

lemma resolveReadOnly_error_shape (memory : List Int) (ip idx : Nat) (pmd : Int)
    (e : EmulatorError) (h : resolveReadOnly memory ip idx pmd = .error e) :
    (∃ v p, e = .InvalidParameterMode v p) ∨ (∃ v p, e = .InvalidMemoryLocation v p) := by
  unfold resolveReadOnly at h
  split at h
  · rename_i e2 hmode
    simp only [Except.error.injEq] at h
    subst h
    exact Or.inl ⟨_, _, parameterModeOfDigit_error_shape _ _ _ hmode⟩
  · simp only [] at h
    split at h
    · simp only [Except.error.injEq] at h
      exact Or.inr ⟨_, _, h.symm⟩
    · split at h
      · simp at h
      · simp only [Except.error.injEq] at h
        exact Or.inr ⟨_, _, h.symm⟩
  · simp at h

lemma resolveWritable_error_shape (memory : List Int) (ip idx : Nat) (pmd : Int)
    (e : EmulatorError) (h : resolveWritable memory ip idx pmd = .error e) :
    (∃ v p, e = .InvalidParameterMode v p) ∨ (∃ v p, e = .InvalidMemoryLocation v p) ∨
      (∃ v p, e = .UnexpectedParameterModeForWritable v p) := by
  unfold resolveWritable at h
  split at h
  · rename_i e2 hmode
    simp only [Except.error.injEq] at h
    subst h
    exact Or.inl ⟨_, _, parameterModeOfDigit_error_shape _ _ _ hmode⟩
  · simp only [] at h
    split at h
    · simp only [Except.error.injEq] at h
      exact Or.inr (Or.inl ⟨_, _, h.symm⟩)
    · split at h
      · simp at h
      · simp only [Except.error.injEq] at h
        exact Or.inr (Or.inl ⟨_, _, h.symm⟩)
  · simp only [Except.error.injEq] at h
    exact Or.inr (Or.inr ⟨_, _, h.symm⟩)

lemma getCurrentInstruction_error_shape (memory : List Int) (ip : Nat) (e : EmulatorError)
    (h : getCurrentInstruction memory ip = .error e) :
    (∃ p, e = .InstructionPointerOutOfBounds p) ∨ (∃ v p, e = .InvalidInstruction v p) := by
  unfold getCurrentInstruction at h
  split at h
  · simp only [Except.error.injEq] at h
    exact Or.inl ⟨_, h.symm⟩
  · simp only [] at h
    split_ifs at h <;>
      first
      | exact Except.noConfusion h
      | (simp only [Except.error.injEq] at h
         exact Or.inr ⟨_, _, h.symm⟩)

lemma getCurrentInstruction_ok_inv (memory : List Int) (ip : Nat) (op : OpCode) (pmd : Int)
    (h : getCurrentInstruction memory ip = .ok (op, pmd)) :
    ∃ w, memory[ip]? = some w ∧ w.tmod 100 = op.toOpcode ∧ pmd = w.tdiv 100 := by
  unfold getCurrentInstruction at h
  split at h
  · simp at h
  · rename_i w hw
    refine ⟨w, hw, ?_⟩
    simp only [] at h
    split_ifs at h
    all_goals
      simp only [Except.ok.injEq, Prod.mk.injEq] at h
      obtain ⟨rfl, rfl⟩ := h
      refine ⟨?_, rfl⟩
      simp only [OpCode.toOpcode]
      assumption

lemma run_none_inv (memory : List Int) (ip : Nat) (inp : List (Except EmulatorError Int))
    (m2 : List Int) (i2 : List (Except EmulatorError Int)) (o : Option Int)
    (h : OpCode.run memory ip inp = (m2, i2, .ok (none, o))) :
    m2 = memory ∧ i2 = inp ∧ o = none ∧
      ∃ w, memory[ip]? = some w ∧ w.tmod 100 = 99 := by
  unfold OpCode.run at h
  split at h
  · simp at h
  · rename_i op pmd heq
    cases op
    case End =>
      obtain ⟨w, hw, hmod, -⟩ := getCurrentInstruction_ok_inv memory ip .End pmd heq
      simp only [OpCode.toOpcode] at hmod
      simp only [Prod.mk.injEq, Except.ok.injEq] at h
      exact ⟨h.1.symm, h.2.1.symm, h.2.2.2.symm, w, hw, hmod⟩
    all_goals
      simp only [] at h
      repeat' split at h
      all_goals simp at h

lemma run_error_inv (memory : List Int) (ip : Nat) (inp : List (Except EmulatorError Int))
    (m2 : List Int) (i2 : List (Except EmulatorError Int)) (err : EmulatorError)
    (h : OpCode.run memory ip inp = (m2, i2, .error err)) : m2 = memory := by
  unfold OpCode.run at h
  split at h
  · simp only [Prod.mk.injEq] at h
    exact h.1.symm
  · rename_i op pmd heq
    cases op
    all_goals
      simp only [] at h
      repeat' split at h
      all_goals
        first
        | (simp only [Prod.mk.injEq] at h
           exact h.1.symm)
        | simp at h

/-- C4: halting is terminal and step is idempotent after it: whenever
step returns Halted (Done), the state is unchanged by that call, and a
further step call on the resulting state returns Halted again, not an
error, leaving Memory and the instruction pointer unchanged. -/
theorem step_after_halt_idempotent (e e2 : Emulator) (h : e.step = (e2, .ok .Done)) :
    e2 = e ∧ e2.step = (e2, .ok .Done) := by
  unfold Emulator.step at h
  split at h
  · simp at h
  case _ m2 i2 o heq =>
    obtain ⟨hm, hi, ho, w, hw, hmod⟩ := run_none_inv _ _ _ _ _ _ heq
    subst hm
    subst hi
    have he2 : e2 = e := by
      simp only [Prod.mk.injEq] at h
      exact h.1.symm
    have hdec : getCurrentInstruction e.memory e.instructionPointer =
        .ok (.End, w.tdiv 100) := by
      simp [getCurrentInstruction, hw, hmod]
    have hrun : OpCode.run e.memory e.instructionPointer e.inputIter =
        (e.memory, e.inputIter, .ok (none, none)) := by
      unfold OpCode.run
      rw [hdec]
    have hstep : e.step = (e, .ok .Done) := by
      unfold Emulator.step
      rw [hrun]
    rw [he2]
    exact ⟨rfl, hstep⟩
  · simp at h
  · simp at h

/-- Witness for C4 on the program [99]. -/
theorem step_after_halt_idempotent_witness :
    (⟨[99], 0, []⟩ : Emulator) = ⟨[99], 0, []⟩ ∧
    Emulator.step ⟨[99], 0, []⟩ = (⟨[99], 0, []⟩, .ok .Done) :=
  step_after_halt_idempotent ⟨[99], 0, []⟩ ⟨[99], 0, []⟩ (by rfl)

/-- C9: step is atomic on error: whenever step returns any error, both
Memory and the instruction pointer of the resulting state are exactly as
they were before the call (the input iterator may have advanced, which
the claim does not constrain). -/
theorem step_error_atomic (e e2 : Emulator) (err : EmulatorError)
    (h : e.step = (e2, .error err)) :
    e2.memory = e.memory ∧ e2.instructionPointer = e.instructionPointer := by
  unfold Emulator.step at h
  split at h
  case _ m2 i2 err2 heq =>
    have hm := run_error_inv _ _ _ _ _ _ heq
    simp only [Prod.mk.injEq] at h
    obtain ⟨h1, -⟩ := h
    rw [← h1]
    exact ⟨hm, rfl⟩
  all_goals simp at h

/-- Witness for C9 on the truncated program [7]. -/
theorem step_error_atomic_witness :
    (⟨[7], 0, []⟩ : Emulator).memory = (⟨[7], 0, []⟩ : Emulator).memory ∧
    (⟨[7], 0, []⟩ : Emulator).instructionPointer =
      (⟨[7], 0, []⟩ : Emulator).instructionPointer :=
  step_error_atomic ⟨[7], 0, []⟩ ⟨[7], 0, []⟩
    (.NotEnoughParametersForInstruction 7 3 3) (by rfl)


lemma resolveReadOnly_ne_notEnough {memory : List Int} {ip idx : Nat} {pmd : Int}
    {a : Int} {b c : Nat} :
    resolveReadOnly memory ip idx pmd ≠
      .error (.NotEnoughParametersForInstruction a b c) := by
  intro h
  rcases resolveReadOnly_error_shape _ _ _ _ _ h with ⟨v, p, he⟩ | ⟨v, p, he⟩ <;> simp at he

lemma resolveWritable_ne_notEnough {memory : List Int} {ip idx : Nat} {pmd : Int}
    {a : Int} {b c : Nat} :
    resolveWritable memory ip idx pmd ≠
      .error (.NotEnoughParametersForInstruction a b c) := by
  intro h
  rcases resolveWritable_error_shape _ _ _ _ _ h with ⟨v, p, he⟩ | ⟨v, p, he⟩ | ⟨v, p, he⟩ <;>
    simp at he

lemma run_guard_fires (memory : List Int) (ip : Nat) (inp : List (Except EmulatorError Int))
    (op : OpCode) (pmd : Int)
    (hdec : getCurrentInstruction memory ip = .ok (op, pmd)) (hop : op ≠ .End)
    (hlen : memory.length ≤ ip + 1 + op.parameterCount) :
    OpCode.run memory ip inp = (memory, inp,
      .error (.NotEnoughParametersForInstruction op.toOpcode op.parameterCount
        (ip + 1 + op.parameterCount - memory.length))) := by
  cases op
  case End => exact absurd rfl hop
  all_goals
    simp only [OpCode.parameterCount] at hlen
    simp only [OpCode.toOpcode, OpCode.parameterCount]
    unfold OpCode.run
    rw [hdec]
    simp only []
    rw [if_pos hlen]

lemma run_notEnough_inv (memory : List Int) (ip : Nat)
    (inp : List (Except EmulatorError Int))
    (m2 : List Int) (i2 : List (Except EmulatorError Int)) (a : Int) (b c : Nat)
    (hinput : ∀ x y z, Except.error
      (EmulatorError.NotEnoughParametersForInstruction x y z) ∉ inp)
    (h : OpCode.run memory ip inp = (m2, i2,
      .error (.NotEnoughParametersForInstruction a b c))) :
    ∃ op pmd, getCurrentInstruction memory ip = .ok (op, pmd) ∧
      memory.length ≤ ip + 1 + op.parameterCount := by
  unfold OpCode.run at h
  split at h
  · rename_i e heq
    simp only [Prod.mk.injEq, Except.error.injEq] at h
    obtain ⟨-, -, he⟩ := h
    rcases getCurrentInstruction_error_shape _ _ _ heq with ⟨p, hes⟩ | ⟨v, p, hes⟩ <;>
      (rw [hes] at he; simp at he)
  · rename_i op pmd heq
    refine ⟨op, pmd, heq, ?_⟩
    cases op
    case End => simp at h
    case Input =>
      simp only [OpCode.parameterCount]
      simp only [] at h
      split at h
      · omega
      · exfalso
        split at h
        · simp_all [resolveWritable_ne_notEnough]
        · split at h
          · simp at h
          · simp only [Prod.mk.injEq, Except.error.injEq] at h
            obtain ⟨-, -, rfl⟩ := h
            exact hinput a b c (List.mem_cons_self _ _)
          · simp at h
    all_goals
      simp only [OpCode.parameterCount]
      simp only [] at h
      split at h
      · omega
      · exfalso
        repeat' split at h
        all_goals simp_all [resolveReadOnly_ne_notEnough, resolveWritable_ne_notEnough]

/-- C2 counterexample: the Output instruction [104, 5] has its single
parameter slot at index 1, which is the final cell of Memory, yet step
fails the parameter bounds check with
NotEnoughParametersForInstruction(4, 1, 0) (reported shortfall 0),
refuting the claim that such an instruction does not fail this check. -/
theorem last_slot_final_cell_fails_check :
    ([104, 5] : List Int).length = 0 + 1 + 1 ∧
    Emulator.step ⟨[104, 5], 0, []⟩ =
      (⟨[104, 5], 0, []⟩, .error (.NotEnoughParametersForInstruction 4 1 0)) :=
  ⟨by rfl, by rfl⟩

/-- C2 amended: for every decoded instruction with at least one declared
parameter, step fails with NotEnoughParametersForInstruction, carrying the
numeric opcode, the declared parameter count and ip + 1 + count minus the
Memory length, if and only if Memory length is at most ip + 1 + count:
the guard demands at least one cell after the last parameter slot, so an
instruction whose last parameter slot is the final cell of Memory does
fail, with reported shortfall 0. The equivalence assumes the input source
does not itself deliver a parameter-shortage error, which the Input
opcode would propagate verbatim. -/
theorem step_param_shortage_iff
    (memory : List Int) (ip : Nat) (input : List (Except EmulatorError Int))
    (op : OpCode) (pmd : Int)
    (hdec : getCurrentInstruction memory ip = .ok (op, pmd))
    (hop : op ≠ .End)
    (hinput : ∀ x y z, Except.error
      (EmulatorError.NotEnoughParametersForInstruction x y z) ∉ input) :
    ((∃ i ex f, (Emulator.step ⟨memory, ip, input⟩).2 =
        .error (.NotEnoughParametersForInstruction i ex f)) ↔
      memory.length ≤ ip + 1 + op.parameterCount) ∧
    (memory.length ≤ ip + 1 + op.parameterCount →
      Emulator.step ⟨memory, ip, input⟩ = (⟨memory, ip, input⟩,
        .error (.NotEnoughParametersForInstruction op.toOpcode op.parameterCount
          (ip + 1 + op.parameterCount - memory.length)))) := by
  have hfire : memory.length ≤ ip + 1 + op.parameterCount →
      Emulator.step ⟨memory, ip, input⟩ = (⟨memory, ip, input⟩,
        .error (.NotEnoughParametersForInstruction op.toOpcode op.parameterCount
          (ip + 1 + op.parameterCount - memory.length))) := by
    intro hlen
    unfold Emulator.step
    rw [run_guard_fires memory ip input op pmd hdec hop hlen]
  refine ⟨⟨?_, ?_⟩, hfire⟩
  · rintro ⟨i, ex, f, herr⟩
    unfold Emulator.step at herr
    split at herr
    · rename_i m2 i2 err2 heq
      simp only [Except.error.injEq] at herr
      subst herr
      obtain ⟨op2, pmd2, hdec2, hlen2⟩ := run_notEnough_inv _ _ _ _ _ _ _ _ hinput heq
      rw [hdec] at hdec2
      simp only [Except.ok.injEq, Prod.mk.injEq] at hdec2
      rw [hdec2.1]
      exact hlen2
    · simp at herr
    · simp at herr
    · simp at herr
  · intro hlen
    rw [hfire hlen]
    exact ⟨_, _, _, rfl⟩

/-- Witness for the amended C2 on the boundary program [104, 5]. -/
theorem step_param_shortage_iff_witness :
    ((∃ i ex f, (Emulator.step ⟨[104, 5], 0, []⟩).2 =
        .error (.NotEnoughParametersForInstruction i ex f)) ↔
      ([104, 5] : List Int).length ≤ 0 + 1 + OpCode.parameterCount .Output) ∧
    (([104, 5] : List Int).length ≤ 0 + 1 + OpCode.parameterCount .Output →
      Emulator.step ⟨[104, 5], 0, []⟩ = (⟨[104, 5], 0, []⟩,
        .error (.NotEnoughParametersForInstruction (OpCode.toOpcode .Output)
          (OpCode.parameterCount .Output)
          (0 + 1 + OpCode.parameterCount .Output - ([104, 5] : List Int).length)))) :=
  step_param_shortage_iff [104, 5] 0 [] .Output ((104 : Int).tdiv 100) (by rfl)
    (by decide) (by intro x y z h; simp at h)
